import Mathlib

/-!
Verification of the DDI training pipeline (`src/code/train.py`) against its
design specification.  The pipeline trains a heterogeneous GNN for drug-drug
interaction (DDI) type prediction.  Pure fragments of the Python code are
embedded as Lean functions; components whose source files (`data.py`,
`model.py`, `utils.py`) are not part of the repository snapshot are modelled
from the specification, as marked in their doc comments.
-/

namespace DDI

/-- Embeds `train.py` lines 83-84 (and identically 98-99):
`real_label = torch.cat([pos_pair_graph.edata[dgl.ETYPE] + 1, torch.zeros(neg_count)])`.
`posEtypes` is the list of DDI subtype indices carried by the positive
prediction graph's edges; `negCount` is the number of rows of the negative
score tensor (one per synthesized negative pair). -/
def realLabel (posEtypes : List ℕ) (negCount : ℕ) : List ℕ :=
  posEtypes.map (· + 1) ++ List.replicate negCount 0

theorem realLabel_length (pos : List ℕ) (neg : ℕ) :
    (realLabel pos neg).length = pos.length + neg := by
  simp [realLabel]

/-- **C1.** In every training/validation batch the true-label vector assigns
label `subtype index + 1` to each positive edge (positions `< pos.length`) and
label `0` to each negative row; label `0` occurs exactly on the negative rows,
so labels `1..N` occur only on positive rows. -/
theorem c1_true_label_vector (pos : List ℕ) (neg i : ℕ)
    (h : i < (realLabel pos neg).length) :
    ((realLabel pos neg).get ⟨i, h⟩ = 0 ↔ pos.length ≤ i) ∧
    (i < pos.length → (realLabel pos neg).get ⟨i, h⟩ = pos.getD i 0 + 1) := by
  by_cases hi : i < pos.length
  · have hmap : i < (pos.map (· + 1)).length := by simpa using hi
    have hget : (realLabel pos neg).get ⟨i, h⟩ = pos.getD i 0 + 1 := by
      show (realLabel pos neg)[i] = pos.getD i 0 + 1
      simp only [realLabel]
      rw [List.getElem_append_left hmap, List.getElem_map,
        List.getD_eq_getElem pos 0 hi]
    refine ⟨?_, fun _ => hget⟩
    constructor
    · intro h0
      rw [hget] at h0
      exact absurd h0 (Nat.succ_ne_zero _)
    · intro hle
      exact absurd hle (Nat.not_le_of_lt hi)
  · have hge : (pos.map (· + 1)).length ≤ i := by
      simpa using Nat.le_of_not_lt hi
    have hget : (realLabel pos neg).get ⟨i, h⟩ = 0 := by
      show (realLabel pos neg)[i] = 0
      simp only [realLabel]
      rw [List.getElem_append_right hge, List.getElem_replicate]
    exact ⟨⟨fun _ => Nat.le_of_not_lt hi, fun _ => hget⟩, fun hlt => absurd hlt hi⟩

/-- Witness for C1 at the concrete batch `pos = [2], neg = 1`:
the label vector is `[3, 0]`. -/
theorem c1_true_label_vector_witness :
    ((realLabel [2] 1).get ⟨0, by decide⟩ = 0 ↔ (1 : ℕ) ≤ 0) ∧
    (0 < 1 → (realLabel [2] 1).get ⟨0, by decide⟩ = [2].getD 0 0 + 1) :=
  c1_true_label_vector [2] 1 0 (by decide)

/-- Embeds `train.py` `Model.__init__` line 63:
`MLPPredictor(in_features=hidden_size, out_classes=self.dataset.num_ddi_types + 1)` —
the predictor's class count is the number of retained DDI subtypes plus one
(class 0 = "no interaction"). -/
def predictorOutClasses (num_ddi_types : ℕ) : ℕ := num_ddi_types + 1

/-- Modelled from the spec: `MLPPredictor` (defined in `model.py`, absent from
the repository snapshot) maps each candidate edge of a prediction graph to a
score vector over `out_classes` classes.  `scoreFn e c` is the (learned, here
abstract) score of edge `e` for class `c`; the output is one row per edge,
each row enumerating the classes `0, 1, ..., out_classes - 1` in fixed order. -/
def mlpPredictor (out_classes : ℕ) (scoreFn : ℕ × ℕ → ℕ → ℚ)
    (edges : List (ℕ × ℕ)) : List (List ℚ) :=
  edges.map fun e => (List.range out_classes).map (scoreFn e)

/-- **C2.** For every batch (any edge list, any scoring function), every
per-edge score row produced by the predictor has length exactly
`num_ddi_types + 1`, and one output row is produced per edge. -/
theorem c2_predictor_output_length (num_ddi_types : ℕ) (scoreFn : ℕ × ℕ → ℕ → ℚ)
    (edges : List (ℕ × ℕ)) :
    (mlpPredictor (predictorOutClasses num_ddi_types) scoreFn edges).length
        = edges.length ∧
    ∀ row ∈ mlpPredictor (predictorOutClasses num_ddi_types) scoreFn edges,
      row.length = num_ddi_types + 1 := by
  constructor
  · simp [mlpPredictor]
  · intro row hrow
    simp only [mlpPredictor, List.mem_map] at hrow
    obtain ⟨e, -, rfl⟩ := hrow
    simp [predictorOutClasses]

/-- Witness for C2 on a concrete two-edge batch with 4 retained subtypes. -/
theorem c2_predictor_output_length_witness :
    (mlpPredictor (predictorOutClasses 4) (fun _ _ => 0) [(0, 1), (2, 3)]).length
        = ([(0, 1), (2, 3)] : List (ℕ × ℕ)).length ∧
    ∀ row ∈ mlpPredictor (predictorOutClasses 4) (fun _ _ => 0) [(0, 1), (2, 3)],
      row.length = 4 + 1 :=
  c2_predictor_output_length 4 (fun _ _ => 0) [(0, 1), (2, 3)]

/-- Modelled from the spec: `DDIDataSet` (defined in `data.py`, absent from the
repository snapshot) counts, for a raw edge list of `(edge-id, subtype)` pairs,
the edges carrying a given DDI subtype. -/
def subtypeCount (raw : List (ℕ × ℕ)) (t : ℕ) : ℕ :=
  (raw.filter fun e => e.2 = t).length

/-- Modelled from the spec: the filtered list of retained DDI subtypes —
a subtype is retained iff its edge count in the raw graph is `≥ min_sample_size`. -/
def retainedTypes (raw : List (ℕ × ℕ)) (minSampleSize : ℕ) (allTypes : List ℕ) :
    List ℕ :=
  allTypes.filter fun t => minSampleSize ≤ subtypeCount raw t

/-- Modelled from the spec: the usable edge-ID universe after filtering —
exactly the raw edges whose subtype is retained; edges of discarded subtypes
are dropped entirely. -/
def usableEdges (raw : List (ℕ × ℕ)) (minSampleSize : ℕ) : List (ℕ × ℕ) :=
  raw.filter fun e => minSampleSize ≤ subtypeCount raw e.2

/-- **C3.** A DDI subtype is retained iff its raw edge count is
`≥ min_sample_size`, and a raw edge belongs to the usable edge-ID universe iff
its subtype is retained — so every edge of a discarded subtype is excluded
outright. -/
theorem c3_subtype_filter (raw : List (ℕ × ℕ)) (minSampleSize : ℕ)
    (allTypes : List ℕ) (t : ℕ) (e : ℕ × ℕ) (he : e ∈ raw) :
    (t ∈ retainedTypes raw minSampleSize allTypes ↔
      t ∈ allTypes ∧ minSampleSize ≤ subtypeCount raw t) ∧
    (e ∈ usableEdges raw minSampleSize ↔ minSampleSize ≤ subtypeCount raw e.2) := by
  constructor
  · simp [retainedTypes]
  · simp [usableEdges, he]

/-- Witness for C3 on the spec's own scenario: subtypes `{0, 1, 2}` with
`{3, 1, 2}` edges and `min_sample_size = 2` — subtype 0 (3 edges) is retained,
and the edge `(3, 1)` of subtype 1 (1 edge `< 2`) is excluded. -/
theorem c3_subtype_filter_witness :
    ((0 : ℕ) ∈ retainedTypes [(0, 0), (1, 0), (2, 0), (3, 1), (4, 2), (5, 2)] 2 [0, 1, 2] ↔
      (0 : ℕ) ∈ [0, 1, 2] ∧
        2 ≤ subtypeCount [(0, 0), (1, 0), (2, 0), (3, 1), (4, 2), (5, 2)] 0) ∧
    (((3, 1) : ℕ × ℕ) ∈ usableEdges [(0, 0), (1, 0), (2, 0), (3, 1), (4, 2), (5, 2)] 2 ↔
      2 ≤ subtypeCount [(0, 0), (1, 0), (2, 0), (3, 1), (4, 2), (5, 2)] ((3, 1) : ℕ × ℕ).2) :=
  c3_subtype_filter [(0, 0), (1, 0), (2, 0), (3, 1), (4, 2), (5, 2)] 2 [0, 1, 2] 0
    (3, 1) (by decide)

/-- Modelled from the spec: the per-subtype evaluation share taken by
`train_test_split(..., test_size=0.2, stratify=...)` in `Model.setup`
(`train.py` lines 69-73) — the ceiling of 20% of the subtype's edge count. -/
def classTestCount (m : ℕ) : ℕ := (m + 4) / 5

/-- Modelled from the spec: the stratified cut of one subtype's edge-id list
(already shuffled by the unseeded RNG): the first `classTestCount` ids become
the evaluation (test) part, the rest the training part.
Returns `(train, test)`. -/
def splitClass (es : List ℕ) : List ℕ × List ℕ :=
  (es.drop (classTestCount es.length), es.take (classTestCount es.length))

/-- Modelled from the spec: the whole stratified 80/20 split — `classes` lists,
per retained DDI subtype, the (shuffled) edge ids of that subtype; the split
concatenates the per-subtype train and test parts.  The unseeded RNG draw of
`train_test_split` is absorbed in the order of each per-subtype list. -/
def stratSplit (classes : List (List ℕ)) : List ℕ × List ℕ :=
  ((classes.map fun es => (splitClass es).1).flatten,
   (classes.map fun es => (splitClass es).2).flatten)

theorem splitClass_perm (es : List ℕ) :
    ((splitClass es).1 ++ (splitClass es).2).Perm es := by
  show (es.drop (classTestCount es.length) ++ es.take (classTestCount es.length)).Perm es
  refine List.perm_append_comm.trans ?_
  rw [List.take_append_drop]

theorem append_shuffle_perm (a b c d : List ℕ) :
    ((a ++ b) ++ (c ++ d)).Perm ((a ++ c) ++ (b ++ d)) := by
  rw [List.append_assoc, List.append_assoc]
  exact (List.perm_append_comm_assoc b c d).append_left a

theorem stratSplit_perm (classes : List (List ℕ)) :
    ((stratSplit classes).1 ++ (stratSplit classes).2).Perm classes.flatten := by
  induction classes with
  | nil => simp [stratSplit]
  | cons es cs ih =>
    simp only [stratSplit, List.map_cons, List.flatten_cons]
    refine (append_shuffle_perm _ _ _ _).trans ?_
    exact (splitClass_perm es).append ih

/-- **C4.** For every per-subtype grouping of the edge-id universe (with
distinct ids), the setup-time split is a disjoint partition of the full usable
universe — train and test are disjoint and together a permutation of all ids —
and it is stratified: within each subtype the test part takes exactly the
ceiling of 20% of that subtype's edges (so the 80/20 proportion holds
per subtype within one edge). -/
theorem c4_stratified_split (classes : List (List ℕ)) (hnd : classes.flatten.Nodup) :
    ((stratSplit classes).1 ++ (stratSplit classes).2).Perm classes.flatten ∧
    (stratSplit classes).1.Disjoint (stratSplit classes).2 ∧
    ∀ es ∈ classes,
      (splitClass es).1.length + (splitClass es).2.length = es.length ∧
      es.length ≤ 5 * (splitClass es).2.length ∧
      5 * (splitClass es).2.length ≤ es.length + 4 := by
  refine ⟨stratSplit_perm classes, ?_, ?_⟩
  · have hnd2 : ((stratSplit classes).1 ++ (stratSplit classes).2).Nodup :=
      ((stratSplit_perm classes).nodup_iff).mpr hnd
    exact (List.nodup_append.mp hnd2).2.2
  · intro es _
    have htc : classTestCount es.length ≤ es.length := by
      simp only [classTestCount]; omega
    have hlen2 : (splitClass es).2.length = classTestCount es.length := by
      simp [splitClass, Nat.min_eq_left htc]
    refine ⟨?_, ?_, ?_⟩
    · simp only [splitClass, List.length_drop, List.length_take, classTestCount]
      omega
    · rw [hlen2]; simp only [classTestCount]; omega
    · rw [hlen2]; simp only [classTestCount]; omega

/-- Witness for C4 on two subtypes with 5 and 2 edges: test takes
`ceil(0.2 * 5) = 1` and `ceil(0.2 * 2) = 1` ids respectively. -/
theorem c4_stratified_split_witness :
    ((stratSplit [[0, 1, 2, 3, 4], [5, 6]]).1 ++
        (stratSplit [[0, 1, 2, 3, 4], [5, 6]]).2).Perm
      ([[0, 1, 2, 3, 4], [5, 6]] : List (List ℕ)).flatten ∧
    (stratSplit [[0, 1, 2, 3, 4], [5, 6]]).1.Disjoint
      (stratSplit [[0, 1, 2, 3, 4], [5, 6]]).2 ∧
    ∀ es ∈ ([[0, 1, 2, 3, 4], [5, 6]] : List (List ℕ)),
      (splitClass es).1.length + (splitClass es).2.length = es.length ∧
      es.length ≤ 5 * (splitClass es).2.length ∧
      5 * (splitClass es).2.length ≤ es.length + 4 :=
  c4_stratified_split [[0, 1, 2, 3, 4], [5, 6]] (by decide)

/-- Modelled from the spec: the universe of candidate Drug-Drug pairs over
`numDrugs` drug nodes. -/
def allDrugPairs (numDrugs : ℕ) : List (ℕ × ℕ) :=
  (List.range numDrugs).flatMap fun u => (List.range numDrugs).map fun v => (u, v)

/-- Modelled from the spec: the pool of non-edges — candidate Drug pairs that
do not occur as true DDI edges. -/
def nonEdges (numDrugs : ℕ) (trueEdges : List (ℕ × ℕ)) : List (ℕ × ℕ) :=
  (allDrugPairs numDrugs).filter fun p => decide (p ∉ trueEdges)

/-- Modelled from the spec: `DDIDataLoader` (defined in `data.py`, absent from
the repository snapshot) synthesizes the batch's negative examples by drawing
from the (shuffled) non-edge pool as many pairs as the batch has positive
edges. -/
def ddiNegBatch (shuffledNonEdges : List (ℕ × ℕ)) (posCount : ℕ) :
    List (ℕ × ℕ) :=
  shuffledNonEdges.take posCount

/-- **C5.** For every sampled batch: when the negative pool (any shuffle of the
non-edges) is large enough, the loader yields exactly one negative pair per
positive edge, and no yielded negative pair coincides with a true DDI edge. -/
theorem c5_negative_sampling (numDrugs posCount : ℕ)
    (trueEdges shuffled : List (ℕ × ℕ))
    (hperm : shuffled.Perm (nonEdges numDrugs trueEdges))
    (hpool : posCount ≤ shuffled.length) :
    (ddiNegBatch shuffled posCount).length = posCount ∧
    ∀ p ∈ ddiNegBatch shuffled posCount, p ∉ trueEdges := by
  constructor
  · simp only [ddiNegBatch, List.length_take]
    omega
  · intro p hp
    have hmem : p ∈ shuffled := List.mem_of_mem_take hp
    have hne : p ∈ nonEdges numDrugs trueEdges := hperm.mem_iff.mp hmem
    simp only [nonEdges, List.mem_filter] at hne
    exact of_decide_eq_true hne.2

/-- Witness for C5: 2 drugs, true edge set `[(0,1)]`, one positive edge. -/
theorem c5_negative_sampling_witness :
    (ddiNegBatch (nonEdges 2 [(0, 1)]) 1).length = 1 ∧
    ∀ p ∈ ddiNegBatch (nonEdges 2 [(0, 1)]) 1, p ∉ [(0, 1)] :=
  c5_negative_sampling 2 1 [(0, 1)] (nonEdges 2 [(0, 1)])
    (List.Perm.refl _) (by decide)

/-- Modelled from the spec: the state of the `EarlyStopping(monitor=val_loss,
mode=min)` callback configured in `train.py` lines 186-192 — the best
validation loss seen so far (`none` = +infinity before the first round), the
count of consecutive non-improving rounds, and whether the stop signal has
been raised. -/
structure ESState where
  best : Option ℚ
  wait : ℕ
  stopped : Bool

/-- Modelled from the spec: one validation-round update of the early-stopping
callback.  A round improves iff `current - min_delta < best`; improvement
resets the wait count and records the new best; otherwise the wait count
increments and the run stops once it reaches `patience`. -/
def esStep (minDelta : ℚ) (patience : ℕ) (s : ESState) (current : ℚ) : ESState :=
  if s.stopped then s
  else
    match s.best with
    | none => ⟨some current, 0, false⟩
    | some b =>
      if current - minDelta < b then ⟨some current, 0, false⟩
      else ⟨some b, s.wait + 1, decide (patience ≤ s.wait + 1)⟩

/-- Modelled from the spec: the early-stopping verdict after a sequence of
validation losses, starting from the fresh callback state. -/
def esRun (minDelta : ℚ) (patience : ℕ) (losses : List ℚ) : ESState :=
  losses.foldl (esStep minDelta patience) ⟨none, 0, false⟩

theorem esStep_of_stopped (minDelta : ℚ) (patience : ℕ) (s : ESState) (c : ℚ)
    (h : s.stopped = true) : esStep minDelta patience s c = s := by
  simp [esStep, h]

theorem foldl_esStep_of_stopped (minDelta : ℚ) (patience : ℕ) (s : ESState)
    (losses : List ℚ) (h : s.stopped = true) :
    losses.foldl (esStep minDelta patience) s = s := by
  induction losses with
  | nil => rfl
  | cons l ls ih => rw [List.foldl_cons, esStep_of_stopped _ _ _ _ h]; exact ih

theorem es_nonimproving_stops (minDelta : ℚ) (patience : ℕ) (b : ℚ)
    (losses : List ℚ) (w : ℕ)
    (hall : ∀ l ∈ losses, b ≤ l - minDelta)
    (hlen : patience ≤ w + losses.length) (hw : w < patience) :
    (losses.foldl (esStep minDelta patience) ⟨some b, w, false⟩).stopped = true := by
  induction losses generalizing w with
  | nil => exfalso; simp only [List.length_nil] at hlen; omega
  | cons l ls ih =>
    rw [List.foldl_cons]
    have hni : ¬ (l - minDelta < b) :=
      not_lt.mpr (hall l (List.mem_cons_self l ls))
    have hstep : esStep minDelta patience ⟨some b, w, false⟩ l
        = ⟨some b, w + 1, decide (patience ≤ w + 1)⟩ := by
      simp [esStep, hni]
    rw [hstep]
    by_cases hp : patience ≤ w + 1
    · rw [foldl_esStep_of_stopped _ _ _ _ (by simp [hp])]
      simp [hp]
    · rw [decide_eq_false hp]
      refine ih (w + 1) (fun x hx => hall x (List.mem_cons_of_mem _ hx)) ?_
        (Nat.lt_of_not_le hp)
      simp only [List.length_cons] at hlen
      omega

/-- **C6.** Early stopping fires exactly when the validation loss fails to
improve on the best by more than `min_delta` for `patience` consecutive
rounds: from any recorded best, `patience` consecutive non-improving rounds
raise the stop signal; and in the spec's scenario (`patience = 3`,
`min_delta = 0`) the loss sequence `[1, 1, 1, 1]` stops the run after the 4th
round while `[1, 1, 1]` does not stop it. -/
theorem c6_early_stopping :
    (∀ (minDelta : ℚ) (patience : ℕ) (b : ℚ) (losses : List ℚ),
      (∀ l ∈ losses, b ≤ l - minDelta) → patience ≤ losses.length →
      1 ≤ patience →
      (losses.foldl (esStep minDelta patience) ⟨some b, 0, false⟩).stopped
        = true) ∧
    (esRun 0 3 [1, 1, 1, 1]).stopped = true ∧
    (esRun 0 3 [1, 1, 1]).stopped = false := by
  refine ⟨?_, by norm_num [esRun, esStep], by norm_num [esRun, esStep]⟩
  intro minDelta patience b losses hall hlen hp
  exact es_nonimproving_stops minDelta patience b losses 0 hall (by omega) (by omega)

/-- Witness for C6: from best loss 1 with `patience = 3`, the three
non-improving losses `[2, 2, 2]` stop the run. -/
theorem c6_early_stopping_witness :
    (([2, 2, 2] : List ℚ).foldl (esStep 0 3) ⟨some 1, 0, false⟩).stopped = true :=
  c6_early_stopping.1 0 3 1 [2, 2, 2]
    (by
      intro l hl
      simp only [List.mem_cons, List.not_mem_nil, or_false] at hl
      rcases hl with rfl | rfl | rfl <;> norm_num)
    (by simp) (by omega)

/-- Embeds `Trainer(max_epochs=-1, ...)` from `train.py` line 195. -/
def trainerMaxEpochs : Int := -1

/-- Modelled from the spec: the trainer's epoch-cap test — a non-negative
`max_epochs` caps the epoch counter; `-1` disables the cap. -/
def epochCapReached (maxEpochs : Int) (epoch : ℕ) : Bool :=
  decide (0 ≤ maxEpochs ∧ maxEpochs ≤ (epoch : Int))

/-- Modelled from the spec: the fit loop stops at a validation-epoch boundary
iff early stopping has triggered or the epoch cap is reached. -/
def fitLoopStops (maxEpochs : Int) (esStopped : Bool) (epoch : ℕ) : Bool :=
  esStopped || epochCapReached maxEpochs epoch

/-- **C7.** With the configured `max_epochs = -1` there is no epoch cap: at
every epoch the fit loop stops exactly when early stopping has triggered, so
the epoch count is unbounded until convergence (or external interruption). -/
theorem c7_no_epoch_cap (epoch : ℕ) (esStopped : Bool) :
    fitLoopStops trainerMaxEpochs esStopped epoch = esStopped := by
  have hcap : epochCapReached trainerMaxEpochs epoch = false := by
    simp only [epochCapReached]
    apply decide_eq_false
    intro h
    simp only [trainerMaxEpochs] at h
    omega
  simp [fitLoopStops, hcap]

/-- Embeds the view of a prediction graph taken by `Model.forward`: the graph
either carries the global node-id mapping `g.ndata[dgl.NID]` (`some idx`, one
global Drug-node id per local node) or no such mapping (`none`). -/
structure PredGraph where
  nid : Option (List ℕ)

/-- Embeds `h['Drug'][g.ndata[dgl.NID]]` from `train.py` line 131: row-gather
of the Drug embedding tensor by the node-id mapping. -/
def gatherRows (hDrug : List (List ℚ)) (idx : List ℕ) : List (List ℚ) :=
  idx.map fun i => hDrug.getD i []

/-- Embeds `Model.forward` (`train.py` lines 128-133): for each prediction
graph, apply the predictor to the Drug embeddings indexed by the graph's
node-id mapping when the mapping is present, and otherwise to the full Drug
embedding tensor directly. -/
def modelForward (predictor : List (List ℚ) → List (List ℚ))
    (hDrug : List (List ℚ)) (gs : List PredGraph) : List (List (List ℚ)) :=
  gs.map fun g =>
    match g.nid with
    | some idx => predictor (gatherRows hDrug idx)
    | none => predictor hDrug

/-- **C8.** In one forward pass over any prediction graphs: a graph carrying a
node-id mapping is scored on the Drug embedding rows selected by that mapping,
and a graph without the mapping is scored on the full Drug embedding tensor. -/
theorem c8_forward_nid_fallback (predictor : List (List ℚ) → List (List ℚ))
    (hDrug : List (List ℚ)) (g₁ g₂ : PredGraph) (idx : List ℕ)
    (h₁ : g₁.nid = some idx) (h₂ : g₂.nid = none) :
    modelForward predictor hDrug [g₁, g₂]
      = [predictor (gatherRows hDrug idx), predictor hDrug] := by
  simp [modelForward, h₁, h₂]

/-- Witness for C8 on a one-row embedding tensor with the identity predictor. -/
theorem c8_forward_nid_fallback_witness :
    modelForward id [[1]] [⟨some [0]⟩, ⟨none⟩]
      = [id (gatherRows [[1]] [0]), id [[1]]] :=
  c8_forward_nid_fallback id [[1]] ⟨some [0]⟩ ⟨none⟩ [0] rfl rfl

/-- **C9.** Evaluation of the resume path at a failing input: over the same
5-edge single-subtype universe, two draws of the unseeded RNG used by
`Model.setup`'s `train_test_split` (order `[0,1,2,3,4]` on the original run,
`[4,3,2,1,0]` on the resumed run) give evaluation sets `[0]` and `[4]` — the
resumed run does not continue with the original run's train/test split
context, contradicting the spec's requirement that the early-stopping decision
sequence survives a resume. -/
theorem c9_resume_regenerates_split :
    ([0, 1, 2, 3, 4] : List ℕ).Perm [4, 3, 2, 1, 0] ∧
    (stratSplit [[0, 1, 2, 3, 4]]).2 = [0] ∧
    (stratSplit [[4, 3, 2, 1, 0]]).2 = [4] := by
  refine ⟨by decide, rfl, rfl⟩

/-- **C10.** The setup-time split is not a deterministic function of the
dataset and hyperparameters: `train_test_split` is called with no fixed seed,
so two RNG draws — two shuffles of the same edge-id universe — can yield
different train/test partitions, hence different validation sets. -/
theorem c10_split_nondeterministic :
    ∃ draw₁ draw₂ : List ℕ, draw₁.Perm draw₂ ∧
      (stratSplit [draw₁]).2 ≠ (stratSplit [draw₂]).2 := by
  refine ⟨[0, 1, 2, 3, 4], [4, 3, 2, 1, 0], by decide, by decide⟩

end DDI
